import Mathlib

/-!
Verification of the webpack compile/prepare orchestration of this repository.

The definitions below are a shallow embedding of `WebpackCompilerService`
(source file `src/unnamed/part_000`) and, where explicitly noted, of the
`PrepareController` watch-state orchestrator whose implementation is not part
of the provided sources (only its test `src/test/controllers/prepare-controller.ts`
is); those parts are modelled from the specification.

Machine-level conventions: JavaScript strings are Lean `String`s; JS arrays are
Lean `List`s; a JS dictionary entry that may be `undefined` is an `Option`;
code that can throw a `TypeError` (dereferencing `undefined`, indexing a `null`
regex result) returns `Option`, with `none` marking the thrown exception.
-/

namespace WebpackCompiler

/-- Substring test: embeds the JS expression `s.indexOf(pat) > -1`
(line 64 of the source: `f.indexOf("hot-update") > -1`). -/
def containsSub (s pat : String) : Bool :=
  (List.range (s.toList.length + 1)).any (fun i => pat.toList.isPrefixOf (s.toList.drop i))

/-- Suffix test: embeds the JS expression `x.endsWith(suffix)`
(line 273 of the source: `x.endsWith('.hot-update.js')`). -/
def strEndsWith (s suffix : String) : Bool :=
  suffix.toList.isSuffixOf s.toList

/-- The literal `.hot-update`, the fixed text required by the regular
expression `/^(.+)\.(.+)\.hot-update/gm` of line 277 of the source. -/
def hotUpdateMarker : List Char := '.' :: "hot-update".toList

/-- Positions `j` of `cs` at which the literal `.hot-update` occurs. -/
def dotHotUpdatePositions (cs : List Char) : List Nat :=
  (List.range cs.length).filter (fun j => hotUpdateMarker.isPrefixOf (cs.drop j))

/-- Positions of the character `.` in `cs`. -/
def dotPositions (cs : List Char) : List Nat :=
  (List.range cs.length).filter (fun i => cs.get? i == some '.')

/-- Embeds `matcher.exec(hotUpdateName)` followed by `matches[2]` (lines
277-279 of the source) for the regular expression
`/^(.+)\.(.+)\.hot-update/gm` under its greedy backtracking semantics:
the first capture group is maximised first (its end `i` is the last dot
position, at least 1, that still leaves room for a nonempty second group
ending at some `.hot-update` occurrence), then the second group is maximised
(its end `j` is the last `.hot-update` occurrence with `i + 2 ≤ j`); the
returned string is the second capture group, the characters strictly between
positions `i` and `j`. `none` models `exec` returning `null`, which makes the
subsequent `matches[2]` index expression throw. The model assumes the file
name contains no newline character (the regex `.` and the `m` flag diverge
from this model only on newlines, which cannot occur in emitted file names). -/
def execHotUpdateMatcher (s : String) : Option String :=
  (((dotPositions s.toList).filter
      (fun i => decide (1 ≤ i) &&
        (dotHotUpdatePositions s.toList).any (fun j => decide (i + 2 ≤ j)))).getLast?).bind
    (fun i =>
      (((dotHotUpdatePositions s.toList).filter (fun j => decide (i + 2 ≤ j))).getLast?).map
        (fun j => String.mk ((s.toList.drop (i + 1)).take (j - (i + 1)))))

/-- Embeds `getCurrentHotUpdateHash` (lines 271-283 of the source): filter the
emitted files for names ending in `.hot-update.js`; when none remain, the
local `hotHash` stays `undefined` and `hotHash || ""` yields `""`; otherwise
run the regex on the first remaining name — a `null` match makes `matches[2]`
throw, modelled as `none`. -/
def getCurrentHotUpdateHash (emittedFiles : List String) : Option String :=
  match (emittedFiles.filter (fun x => strEndsWith x ".hot-update.js")).head? with
  | none => some ""
  | some hotUpdateName =>
    match execHotUpdateMatcher hotUpdateName with
    | none => none
    | some hotHash => some (if hotHash = "" then "" else hotHash)

/-- The object returned by `getUpdatedEmittedFiles` (line 268 of the source). -/
structure ReconcileResult where
  emittedFiles : List String
  fallbackFiles : List String
  hash : String
deriving DecidableEq, Repr

/-- Embeds `getUpdatedEmittedFiles` (lines 251-269 of the source). The stored
dictionary entry `this.expectedHashes[platform]` is passed in as
`prevExpectedHash : Option String` (`none` = the JS `undefined`) and its
updated value (`this.expectedHashes[platform] = nextHash`, line 264) is
returned alongside the result. `const isHashValid = nextHash ?
this.expectedHashes[platform] === currentHash : true` tests the truthiness of
`nextHash`, i.e. whether it is nonempty; `_.difference` keeps the elements of
the first list not contained in the second. `none` propagates the exception
of `getCurrentHotUpdateHash`. -/
def getUpdatedEmittedFiles (allEmittedFiles chunkFiles : List String) (nextHash : String)
    (prevExpectedHash : Option String) : Option (ReconcileResult × String) :=
  (getCurrentHotUpdateHash allEmittedFiles).map (fun currentHash =>
    let isHashValid : Bool := if nextHash = "" then true else prevExpectedHash == some currentHash
    let emittedHotUpdatesAndAssets :=
      if isHashValid then allEmittedFiles.filter (fun f => !(chunkFiles.contains f))
      else allEmittedFiles
    ({ emittedFiles := emittedHotUpdatesAndAssets, fallbackFiles := chunkFiles,
       hash := currentHash }, nextHash))

/-- Embeds `path.join(platformData.appDestinationDirectoryPath, "app", file)`
(lines 58 and 60 of the source) for an output directory without a trailing
separator and a relative file name, the shapes that occur here. -/
def joinAppPath (outDir file : String) : String :=
  outDir ++ "/app/" ++ file

/-- A structured webpack message (`IWebpackEmitMessage`): an object with
`emittedFiles`, `chunkFiles` and `hash`. The other wire form, the literal
string `"Webpack compilation complete."`, carries no payload, only resolves
the pending promise, and is not consumed by the handler body modelled below
(`message.emittedFiles` is `undefined` on it). -/
structure EmitMessage where
  emittedFiles : List String
  chunkFiles : List String
  hash : String
deriving DecidableEq, Repr

/-- The per-platform state read and written by the `message` handler of
`compileWithWatch`: the closure variable `isFirstWebpackWatchCompilation`
(line 30) and the dictionary entry `this.expectedHashes[platform]`
(`none` = still `undefined`). -/
structure WatchState where
  isFirstWebpackWatchCompilation : Bool
  expectedHash : Option String
deriving DecidableEq, Repr

/-- The object `data` emitted with the `WEBPACK_COMPILATION_COMPLETE` event
(lines 62-70 of the source); `hmrHash`/`hmrFallbackFiles` flatten its
`hmrData` sub-object. -/
structure CompilationEventData where
  files : List String
  hasOnlyHotUpdateFiles : Bool
  hmrHash : String
  hmrFallbackFiles : List String
  platform : String
deriving DecidableEq, Repr

/-- Embeds the `result` computation of the handler (lines 49-55 of the
source): with `prepareData.hmr` set, run `getUpdatedEmittedFiles` (which also
overwrites the stored expected hash — returned here as `some newHash`);
without it, bypass reconciliation with `{ emittedFiles: message.emittedFiles,
fallbackFiles: [], hash: "" }` and leave the stored hash untouched (`none`). -/
def reconcileStep (hmr : Bool) (msg : EmitMessage) (prevExpectedHash : Option String) :
    Option (ReconcileResult × Option String) :=
  if hmr then
    (getUpdatedEmittedFiles msg.emittedFiles msg.chunkFiles msg.hash prevExpectedHash).map
      (fun rn => (rn.1, some rn.2))
  else
    some ({ emittedFiles := msg.emittedFiles, fallbackFiles := [], hash := "" }, none)

/-- Embeds the structured-message branch of the `message` handler of
`compileWithWatch` (lines 42-75 of the source). On the very first structured
message the handler records `message.hash` as the platform's expected hash and
returns (lines 43-47). Afterwards it reconciles (lines 49-55), joins the
emitted and fallback file names with the platform output directory (lines
57-60), builds the event object (lines 62-70) whose `hasOnlyHotUpdateFiles`
tests `indexOf("hot-update") > -1` over `files` only, and emits the event iff
`data.files.length` is truthy (lines 72-74). The returned pair is the updated
state and the emitted event, if any; `none` models the reconciler throwing. -/
def processEmitMessage (hmr : Bool) (outDir platform : String)
    (st : WatchState) (msg : EmitMessage) : Option (WatchState × Option CompilationEventData) :=
  if st.isFirstWebpackWatchCompilation then
    some ({ isFirstWebpackWatchCompilation := false, expectedHash := some msg.hash }, none)
  else
    (reconcileStep hmr msg st.expectedHash).map (fun rn =>
      let files := rn.1.emittedFiles.map (joinAppPath outDir)
      let fallbackFiles := rn.1.fallbackFiles.map (joinAppPath outDir)
      let d : CompilationEventData :=
        { files := files,
          hasOnlyHotUpdateFiles := files.all (fun f => containsSub f "hot-update"),
          hmrHash := rn.1.hash,
          hmrFallbackFiles := fallbackFiles,
          platform := platform }
      ({ st with expectedHash := match rn.2 with | some h => some h | none => st.expectedHash },
       if files.length = 0 then none else some d))

/-- The subprocess registry of the supervisor, restricted to one platform key:
whether `this.webpackProcesses[platform]` is set, and how many spawned
subprocesses are live (spawning increments it; nothing in `compileWithWatch`
ever kills one, and re-registering merely overwrites the dictionary entry). -/
structure SupRegistry where
  registered : Bool
  liveProcesses : Nat
deriving DecidableEq, Repr

/-- Program counter of one `compileWithWatch` call for a fixed platform. The
registry read of line 25 and the spawn-plus-register block of lines 169-171
are separated by an `await` boundary (`await this.startWebpackProcess`, whose
body suspends at `await this.buildEnvCommandLineParams` before spawning), so
another call's registry read may be scheduled between them. -/
inductive WatchCallPC
  | atRegistryCheck
  | atSpawnRegister
  | finished
deriving DecidableEq, Repr

/-- One atomic step of a `compileWithWatch` call (lines 23-33 and 147-175 of
the source): the registry check resolves immediately when a subprocess is
already registered, otherwise the call proceeds to the spawn-and-register
block, which spawns a subprocess and stores it in the registry. -/
def watchCallStep : WatchCallPC → SupRegistry → WatchCallPC × SupRegistry
  | .atRegistryCheck, s => if s.registered then (.finished, s) else (.atSpawnRegister, s)
  | .atSpawnRegister, s => (.finished, { registered := true, liveProcesses := s.liveProcesses + 1 })
  | .finished, s => (.finished, s)

/-- Two concurrent `compileWithWatch` calls for the same platform, plus the
shared registry. -/
structure TwoCalls where
  pcA : WatchCallPC
  pcB : WatchCallPC
  reg : SupRegistry
deriving DecidableEq, Repr

/-- Scheduler step: run one atomic step of call A (`true`) or call B
(`false`). -/
def stepTwo (t : TwoCalls) (stepA : Bool) : TwoCalls :=
  if stepA then
    let p := watchCallStep t.pcA t.reg
    { t with pcA := p.1, reg := p.2 }
  else
    let p := watchCallStep t.pcB t.reg
    { t with pcB := p.1, reg := p.2 }

/-- Run a cooperative schedule over the two calls. -/
def runTwo (sched : List Bool) (t : TwoCalls) : TwoCalls :=
  sched.foldl stepTwo t

/-- Both calls about to perform the registry check, nothing registered. -/
def initTwoCalls : TwoCalls :=
  ⟨.atRegistryCheck, .atRegistryCheck, ⟨false, 0⟩⟩

/-- Settlement of a `compileWithoutWatch` call. -/
inductive CompileOnceOutcome
  | resolved
  | rejectedWithCode (code : Int)
deriving DecidableEq, Repr

/-- Observable outcome of one `compileWithoutWatch` call: how the promise
settled, whether the platform's registry entry remains afterwards, and
whether a subprocess was spawned. -/
structure CompileOnceRun where
  outcome : CompileOnceOutcome
  registeredAfter : Bool
  spawned : Bool
deriving DecidableEq, Repr

/-- Embeds `compileWithoutWatch` (lines 100-132 of the source) for a run in
which the spawned subprocess exits with `exitCode` (the number the `close`
handler recovers from its argument, line 119). If a subprocess is already
registered for the platform the call resolves at once without spawning
(lines 102-105). Otherwise the `close` handler first deletes the registry
entry (line 118) and then resolves on exit code `0`, or rejects with an
`Error` whose `code` field is the exit code (lines 120-126). -/
def compileWithoutWatch (alreadyRegistered : Bool) (exitCode : Int) : CompileOnceRun :=
  if alreadyRegistered then
    { outcome := .resolved, registeredAfter := true, spawned := false }
  else if exitCode = 0 then
    { outcome := .resolved, registeredAfter := false, spawned := true }
  else
    { outcome := .rejectedWithCode exitCode, registeredAfter := false, spawned := true }

/-- The state touched by `stopWebpackCompiler`: the platforms with a
registered subprocess (`Object.keys(this.webpackProcesses)`, in insertion
order) and the log of processes that received `kill("SIGINT")`, in order. -/
structure WebpackStopState where
  registeredPlatforms : List String
  killedWithSigint : List String
deriving DecidableEq, Repr

/-- Embeds `stopWebpackForPlatform` (lines 285-293 of the source). The method
reads `this.webpackProcesses[platform]` and immediately evaluates
`webpackProcess.pid.toString()` — BEFORE its own `if (webpackProcess)` guard —
so when no subprocess is registered for the platform the `.pid` access on
`undefined` throws a `TypeError`, modelled as `none`. When one is registered
it is killed with the interrupt signal `SIGINT` and its registry entry is
deleted. -/
def stopWebpackForPlatform (s : WebpackStopState) (platform : String) :
    Option WebpackStopState :=
  if s.registeredPlatforms.contains platform then
    some { registeredPlatforms := s.registeredPlatforms.filter (fun p => p != platform),
           killedWithSigint := s.killedWithSigint ++ [platform] }
  else none

/-- The loop of lines 138-143 of the source: iterate over a snapshot of
`Object.keys(this.webpackProcesses)`, awaiting `stopWebpackForPlatform` for
each; a thrown exception aborts the loop. -/
def stopAllPlatforms (s : WebpackStopState) : List String → Option WebpackStopState
  | [] => some s
  | p :: ps =>
    match stopWebpackForPlatform s p with
    | none => none
    | some s2 => stopAllPlatforms s2 ps

/-- Embeds `stopWebpackCompiler` (lines 134-144 of the source): with a truthy
(nonempty) `platform` argument stop that platform, otherwise stop every
platform in the registry key snapshot. -/
def stopWebpackCompiler (s : WebpackStopState) (platform : String) :
    Option WebpackStopState :=
  if platform ≠ "" then stopWebpackForPlatform s platform
  else stopAllPlatforms s s.registeredPlatforms

end WebpackCompiler

namespace PrepareOrchestrator

open WebpackCompiler

/-- Modelled from the spec: the events affecting one platform's
`hasPendingNativeChange` latch in the PrepareOrchestrator (the repository's
`PrepareController`, whose implementation is not among the provided sources —
only its test `src/test/controllers/prepare-controller.ts` is). Spec section 3:
the latch is set on any qualifying native file event and reset only when
consumed by a readiness emission; section 4.4: the initial
`prepareNativePlatform` result seeds it by logical OR with any value already
latched by a racing watcher, and each compilation-complete event merges the
current latch into the payload and then atomically clears it. -/
inductive PrepEvent
  | nativeFileEvent
  | nativePrepareReturns (changed : Bool)
  | compilationComplete
deriving DecidableEq, Repr

/-- Modelled from the spec (sections 3 and 4.4, see `PrepEvent`): the effect of
one event on the latch; the optional output is the `hasNativeChanges` value a
readiness emission carries. -/
def latchStep (latch : Bool) : PrepEvent → Bool × Option Bool
  | .nativeFileEvent => (true, none)
  | .nativePrepareReturns changed => (latch || changed, none)
  | .compilationComplete => (false, some latch)

/-- Modelled from the spec: run an event trace from a latch value, collecting
the `hasNativeChanges` of each readiness emission, in order. -/
def runPrepare (latch : Bool) : List PrepEvent → List Bool
  | [] => []
  | e :: es =>
    let p := latchStep latch e
    match p.2 with
    | none => runPrepare p.1 es
    | some b => b :: runPrepare p.1 es

/-- The latching contribution of one event: a qualifying native file event
latches unconditionally, the initial native-prepare result latches when it is
`true`. -/
def latchBit : PrepEvent → Bool
  | .nativeFileEvent => true
  | .nativePrepareReturns changed => changed
  | .compilationComplete => false

/-- The latch value after a trace that has not yet emitted. -/
def latchAfter (events : List PrepEvent) : Bool :=
  events.foldl (fun l e => (latchStep l e).1) false

/-- The `PrepareReadyPayload` of the spec (section 3), with `hmrData`
flattened into `hmrHash`/`hmrFallbackFiles`. -/
structure PrepareReadyPayload where
  files : List String
  hasNativeChanges : Bool
  hasOnlyHotUpdateFiles : Bool
  hmrHash : String
  hmrFallbackFiles : List String
  platform : String
deriving DecidableEq, Repr

/-- Modelled from the spec (section 4.4 step 3): merge a supervisor
compilation-complete event fragment with the current latch value. -/
def mergeReadyPayload (latch : Bool) (d : CompilationEventData) : PrepareReadyPayload :=
  { files := d.files,
    hasNativeChanges := latch,
    hasOnlyHotUpdateFiles := d.hasOnlyHotUpdateFiles,
    hmrHash := d.hmrHash,
    hmrFallbackFiles := d.hmrFallbackFiles,
    platform := d.platform }

/-- Drive a sequence of structured bundler messages through
`processEmitMessage` (the embedded handler of `compileWithWatch`), merging
each raised event with the current latch and clearing the latch on emission
(the merge-then-clear of spec section 4.4). `none` propagates a reconciler
exception. -/
def runWatchMessages (hmr : Bool) (outDir platform : String) :
    WatchState → Bool → List EmitMessage → Option (List PrepareReadyPayload)
  | _, _, [] => some []
  | st, latch, m :: ms =>
    match processEmitMessage hmr outDir platform st m with
    | none => none
    | some (st2, none) => runWatchMessages hmr outDir platform st2 latch ms
    | some (st2, some d) =>
      (runWatchMessages hmr outDir platform st2 false ms).map
        (fun rest => mergeReadyPayload latch d :: rest)

/-- The concrete scenario of spec section 8 for platform `"ios"`: native
prepare returns `false` while the armed watcher fires one change event during
the call; the bundler then emits its first (seed) structured message (hash
`"h0"`) followed by a second message with `emittedFiles ["main.js"]`,
`chunkFiles []`, `hash "abc"`. The output directory is
`"/proj/platforms/ios"`, so the resolved path of `main.js` is
`"/proj/platforms/ios/app/main.js"`. -/
def iosWatchScenario : Option (List PrepareReadyPayload) :=
  runWatchMessages true "/proj/platforms/ios" "ios"
    { isFirstWebpackWatchCompilation := true, expectedHash := none }
    (latchAfter [.nativeFileEvent, .nativePrepareReturns false])
    [{ emittedFiles := ["bundle.js"], chunkFiles := [], hash := "h0" },
     { emittedFiles := ["main.js"], chunkFiles := [], hash := "abc" }]

end PrepareOrchestrator

namespace WebpackCompiler

/-- C1: for every reconciler call, the chain is valid iff `nextHash` is empty
or the stored previous expected hash equals the `currentHash` extracted from
`allEmittedFiles`; when valid the returned `emittedFiles` are `allEmittedFiles`
minus `chunkFiles`, when invalid they are `allEmittedFiles` unchanged, and
`fallbackFiles` are `chunkFiles` in both cases. -/
theorem getUpdatedEmittedFiles_spec (allEmittedFiles chunkFiles : List String)
    (nextHash : String) (prevExpectedHash : Option String) (currentHash : String)
    (hch : getCurrentHotUpdateHash allEmittedFiles = some currentHash) :
    getUpdatedEmittedFiles allEmittedFiles chunkFiles nextHash prevExpectedHash =
      some ({ emittedFiles :=
                if nextHash = "" ∨ prevExpectedHash = some currentHash
                then allEmittedFiles.filter (fun f => !(chunkFiles.contains f))
                else allEmittedFiles,
              fallbackFiles := chunkFiles,
              hash := currentHash }, nextHash) := by
  unfold getUpdatedEmittedFiles
  rw [hch, Option.map_some']
  by_cases h1 : nextHash = "" <;> by_cases h2 : prevExpectedHash = some currentHash <;>
    simp [h1, h2]

theorem getUpdatedEmittedFiles_spec_witness :
    getUpdatedEmittedFiles ["main.abc.hot-update.js", "bundle.js"] ["bundle.js"] "n"
        (some "abc") =
      some ({ emittedFiles :=
                if ("n" : String) = "" ∨ (some "abc" : Option String) = some "abc"
                then (["main.abc.hot-update.js", "bundle.js"].filter
                        (fun f => !((["bundle.js"] : List String).contains f)))
                else ["main.abc.hot-update.js", "bundle.js"],
              fallbackFiles := ["bundle.js"], hash := "abc" }, "n") :=
  getUpdatedEmittedFiles_spec _ _ _ _ _ (by decide)

/-- C2 counterexample: the schedule in which both calls run their registry
check before either reaches the spawn-and-register block leaves two live
subprocesses for the platform, refuting "at most one live bundler subprocess
exists per platform at any time, even when compileWatch is called twice
concurrently". -/
theorem compileWithWatch_concurrent_double_spawn :
    ¬ (runTwo [true, false, true, false] initTwoCalls).reg.liveProcesses ≤ 1 := by
  decide

/-- C2 amended: a `compileWithWatch` call whose registry check finds a
subprocess already registered resolves immediately without spawning, so a call
sequenced after a completed one never double-starts; but two concurrent calls
may both pass the registry check before either registers (the check and the
spawn are separated by an await boundary), in which case both spawn and two
live subprocesses exist for the platform. -/
theorem compileWithWatch_registry_check_spec :
    (∀ s : SupRegistry, s.registered = true →
        watchCallStep WatchCallPC.atRegistryCheck s = (WatchCallPC.finished, s)) ∧
    (runTwo [true, true, false, false] initTwoCalls).reg.liveProcesses = 1 ∧
    (runTwo [true, false, true, false] initTwoCalls).reg.liveProcesses = 2 := by
  refine ⟨?_, by decide, by decide⟩
  intro s hs
  simp [watchCallStep, hs]

theorem compileWithWatch_registry_check_spec_witness :
    watchCallStep WatchCallPC.atRegistryCheck
        { registered := true, liveProcesses := 5 } =
      (WatchCallPC.finished, { registered := true, liveProcesses := 5 }) :=
  compileWithWatch_registry_check_spec.1 { registered := true, liveProcesses := 5 } rfl

/-- C4: the very first structured message only records the message hash as the
platform's expected hash; no reconciliation runs and no compilation-complete
event is raised. -/
theorem firstWatchMessage_seeds_only (hmr : Bool) (outDir platform : String)
    (expectedHash : Option String) (msg : EmitMessage) :
    processEmitMessage hmr outDir platform
        { isFirstWebpackWatchCompilation := true, expectedHash := expectedHash } msg =
      some ({ isFirstWebpackWatchCompilation := false, expectedHash := some msg.hash },
            none) := rfl

/-- C5 counterexample: for a later structured message whose reconciliation
returns no emitted file but a nonempty fallback list, the candidate list of
the claim (the joins of the emitted AND fallback files) is nonempty, yet the
handler raises no event, because the emission test looks at the joined emitted
files only. -/
theorem laterMessage_fallback_not_candidates :
    processEmitMessage true "/out" "ios"
        { isFirstWebpackWatchCompilation := false, expectedHash := some "" }
        { emittedFiles := ["bundle.js"], chunkFiles := ["bundle.js"], hash := "h1" } =
      some ({ isFirstWebpackWatchCompilation := false, expectedHash := some "h1" }, none) ∧
    getUpdatedEmittedFiles ["bundle.js"] ["bundle.js"] "h1" (some "") =
      some ({ emittedFiles := [], fallbackFiles := ["bundle.js"], hash := "" }, "h1") ∧
    (([] : List String) ++ ["bundle.js"]).map (joinAppPath "/out") ≠ [] := by
  refine ⟨by decide, by decide, by decide⟩

/-- C5 amended: for every structured watch-mode message after the first, the
candidate paths that matter are the reconciled EMITTED files joined with the
platform output directory: `hasOnlyHotUpdateFiles` is true iff every such
emitted-file path contains the hot-update marker, and the compilation-complete
event (carrying files, hasOnlyHotUpdateFiles, hmrData, platform) is raised iff
that emitted-file path list is nonempty; the joined fallback files are only
carried inside `hmrData.fallbackFiles` and do not influence either. -/
theorem laterMessage_event_spec (hmr : Bool) (outDir platform : String)
    (expectedHash : Option String) (msg : EmitMessage) (r : ReconcileResult)
    (newExp : Option String)
    (hr : reconcileStep hmr msg expectedHash = some (r, newExp)) :
    processEmitMessage hmr outDir platform
        { isFirstWebpackWatchCompilation := false, expectedHash := expectedHash } msg =
      some ({ isFirstWebpackWatchCompilation := false,
              expectedHash := match newExp with | some h => some h | none => expectedHash },
            if (r.emittedFiles.map (joinAppPath outDir)).length = 0 then none
            else some { files := r.emittedFiles.map (joinAppPath outDir),
                        hasOnlyHotUpdateFiles :=
                          (r.emittedFiles.map (joinAppPath outDir)).all
                            (fun f => containsSub f "hot-update"),
                        hmrHash := r.hash,
                        hmrFallbackFiles := r.fallbackFiles.map (joinAppPath outDir),
                        platform := platform }) := by
  cases newExp <;> simp [processEmitMessage, hr]

theorem laterMessage_event_spec_witness :
    processEmitMessage false "/out" "ios"
        { isFirstWebpackWatchCompilation := false, expectedHash := none }
        { emittedFiles := ["main.js"], chunkFiles := [], hash := "" } =
      some ({ isFirstWebpackWatchCompilation := false,
              expectedHash := match (none : Option String) with
                              | some h => some h | none => (none : Option String) },
            if ((["main.js"] : List String).map (joinAppPath "/out")).length = 0 then none
            else some { files := (["main.js"] : List String).map (joinAppPath "/out"),
                        hasOnlyHotUpdateFiles :=
                          ((["main.js"] : List String).map (joinAppPath "/out")).all
                            (fun f => containsSub f "hot-update"),
                        hmrHash := "",
                        hmrFallbackFiles := ([] : List String).map (joinAppPath "/out"),
                        platform := "ios" }) :=
  laterMessage_event_spec false "/out" "ios" none
    { emittedFiles := ["main.js"], chunkFiles := [], hash := "" }
    { emittedFiles := ["main.js"], fallbackFiles := [], hash := "" } none rfl

/-- C6: a one-shot compilation resolves immediately (without spawning) when a
subprocess is already registered for the platform; otherwise it resolves iff
the spawned subprocess exits with code 0 and rejects with the exit code
attached when that code is nonzero, the registry entry being removed in both
exit cases. -/
theorem compileWithoutWatch_spec (exitCode : Int) :
    compileWithoutWatch true exitCode =
      { outcome := CompileOnceOutcome.resolved, registeredAfter := true,
        spawned := false } ∧
    compileWithoutWatch false 0 =
      { outcome := CompileOnceOutcome.resolved, registeredAfter := false,
        spawned := true } ∧
    (exitCode ≠ 0 →
      compileWithoutWatch false exitCode =
        { outcome := CompileOnceOutcome.rejectedWithCode exitCode,
          registeredAfter := false, spawned := true }) := by
  refine ⟨rfl, rfl, fun h => ?_⟩
  simp [compileWithoutWatch, h]

theorem compileWithoutWatch_spec_witness :
    (3 : Int) ≠ 0 ∧
    compileWithoutWatch false 3 =
      { outcome := CompileOnceOutcome.rejectedWithCode 3, registeredAfter := false,
        spawned := true } :=
  ⟨by decide, (compileWithoutWatch_spec 3).2.2 (by decide)⟩

/-- C7: evaluating `stopWebpackCompiler` at the failing input — a named
platform with no registered subprocess — shows the call throwing (the `.pid`
access on `undefined`, performed before the method's own `if (webpackProcess)`
guard) instead of settling as a no-op; with no platform given, every
registered subprocess is killed with `SIGINT` and deregistered. -/
theorem stopWebpackCompiler_unregistered_throws :
    stopWebpackCompiler { registeredPlatforms := [], killedWithSigint := [] } "ios" =
      none ∧
    stopWebpackCompiler
        { registeredPlatforms := ["ios", "android"], killedWithSigint := [] } "" =
      some { registeredPlatforms := [], killedWithSigint := ["ios", "android"] } := by
  refine ⟨by decide, by decide⟩

/-- C10: with hmr disabled, a structured message after the first bypasses
hash-chain reconciliation entirely: the candidate files are all of the
message's emitted files joined with the output directory, `hmrData.hash` is
empty, `hmrData.fallbackFiles` is empty, and the platform's stored expected
hash is left unchanged. -/
theorem hmrDisabled_bypasses_reconciliation (outDir platform : String)
    (expectedHash : Option String) (msg : EmitMessage) :
    processEmitMessage false outDir platform
        { isFirstWebpackWatchCompilation := false, expectedHash := expectedHash } msg =
      some ({ isFirstWebpackWatchCompilation := false, expectedHash := expectedHash },
            if (msg.emittedFiles.map (joinAppPath outDir)).length = 0 then none
            else some { files := msg.emittedFiles.map (joinAppPath outDir),
                        hasOnlyHotUpdateFiles :=
                          (msg.emittedFiles.map (joinAppPath outDir)).all
                            (fun f => containsSub f "hot-update"),
                        hmrHash := "", hmrFallbackFiles := [],
                        platform := platform }) := by
  simp [processEmitMessage, reconcileStep]

end WebpackCompiler

namespace PrepareOrchestrator

theorem latchBit_eq (e : PrepEvent) :
    latchBit e = (e == PrepEvent.nativeFileEvent ||
                  e == PrepEvent.nativePrepareReturns true) := by
  cases e with
  | nativeFileEvent => rfl
  | nativePrepareReturns changed => cases changed <;> rfl
  | compilationComplete => rfl

theorem runPrepare_latch_accum (post : List PrepEvent) :
    ∀ (pre : List PrepEvent) (latch : Bool),
      (∀ e ∈ pre, e ≠ PrepEvent.compilationComplete) →
      runPrepare latch (pre ++ PrepEvent.compilationComplete :: post) =
        (latch || pre.any latchBit) :: runPrepare false post := by
  intro pre
  induction pre with
  | nil => intro latch _; simp [runPrepare, latchStep]
  | cons e pre ih =>
    intro latch hpre
    have he : e ≠ PrepEvent.compilationComplete := hpre e (List.mem_cons_self e pre)
    have hpre' : ∀ x ∈ pre, x ≠ PrepEvent.compilationComplete :=
      fun x hx => hpre x (List.mem_cons_of_mem e hx)
    cases e with
    | nativeFileEvent =>
      simp [runPrepare, latchStep, ih true hpre', latchBit]
    | nativePrepareReturns c =>
      simp [runPrepare, latchStep, ih (latch || c) hpre', latchBit, Bool.or_assoc]
    | compilationComplete => exact absurd rfl he

/-- C3: in watch mode the `hasNativeChanges` of the first readiness payload is
true iff the initial native-prepare call returned true or at least one
qualifying native file event was observed at any point before the payload was
emitted — including an event fired while the native-prepare call was still in
flight and about to return false. -/
theorem hasNativeChanges_latched (pre post : List PrepEvent)
    (hpre : ∀ e ∈ pre, e ≠ PrepEvent.compilationComplete) :
    runPrepare false (pre ++ PrepEvent.compilationComplete :: post) =
      (pre.any (fun e => e == PrepEvent.nativeFileEvent ||
                         e == PrepEvent.nativePrepareReturns true))
        :: runPrepare false post := by
  have h := runPrepare_latch_accum post pre false hpre
  have hfun : latchBit = fun e => (e == PrepEvent.nativeFileEvent ||
      e == PrepEvent.nativePrepareReturns true) := funext latchBit_eq
  rw [hfun] at h
  simpa using h

theorem hasNativeChanges_latched_witness :
    runPrepare false [PrepEvent.nativeFileEvent, PrepEvent.nativePrepareReturns false,
                      PrepEvent.compilationComplete] = [true] := by
  have h := hasNativeChanges_latched
    [PrepEvent.nativeFileEvent, PrepEvent.nativePrepareReturns false] [] (by decide)
  simpa using h

/-- C9 counterexample: the claimed single readiness event for the concrete
ios scenario carries `hmrData.hash = "abc"`, but the reconciler's returned
hash is the CURRENT compilation's hot-update hash (empty here, since
`main.js` is not a hot-update file); `"abc"` is only stored as the next
expected hash. -/
theorem iosWatchScenario_not_claimed :
    iosWatchScenario ≠
      some [{ files := ["/proj/platforms/ios/app/main.js"], hasNativeChanges := true,
              hasOnlyHotUpdateFiles := false, hmrHash := "abc", hmrFallbackFiles := [],
              platform := "ios" }] := by
  decide

/-- C9 amended: the scenario emits exactly one readiness event, equal to the
claimed one except that `hmrData.hash` is the empty string (the current
compilation contains no hot-update file; the message hash `"abc"` is stored
as the platform's next expected hash instead of being reported). -/
theorem iosWatchScenario_actual :
    iosWatchScenario =
      some [{ files := ["/proj/platforms/ios/app/main.js"], hasNativeChanges := true,
              hasOnlyHotUpdateFiles := false, hmrHash := "", hmrFallbackFiles := [],
              platform := "ios" }] := by
  decide

end PrepareOrchestrator

namespace WebpackCompiler

theorem mk_toList (s : String) : String.mk s.toList = s := by
  cases s
  rfl

theorem filter_range_singleton {Q : Nat → Bool} {L n : Nat} (hn : n < L)
    (hQ : ∀ i, i < L → (Q i = true ↔ i = n)) : (List.range L).filter Q = [n] := by
  induction L with
  | zero => omega
  | succ L ih =>
    rw [List.range_succ, List.filter_append]
    rcases Nat.lt_or_ge n L with hnL | hnL
    · rw [ih hnL (fun i hi => hQ i (Nat.lt_succ_of_lt hi))]
      have hqL : Q L = false := by
        cases hq : Q L with
        | false => rfl
        | true => exact absurd ((hQ L (Nat.lt_succ_self L)).mp hq) (by omega)
      simp [hqL]
    · have hEq : n = L := by omega
      subst hEq
      have hnil : (List.range n).filter Q = [] := by
        rw [List.filter_eq_nil_iff]
        intro a ha hqa
        have haLt := List.mem_range.mp ha
        have := (hQ a (Nat.lt_succ_of_lt haLt)).mp hqa
        omega
      have hq : Q n = true := (hQ n (Nat.lt_succ_self n)).mpr rfl
      simp [hnil, hq]

theorem hotUpdateTail_dot (q : Nat) (hq : ("hot-update.js".toList).get? q = some '.') :
    q = 10 := by
  have h13 : ("hot-update.js".toList).length = 13 := by decide
  have hlt : q < 13 := by
    by_contra hge
    have hnone : ("hot-update.js".toList).get? q = none := List.get?_eq_none.mpr (by omega)
    rw [hnone] at hq
    exact Option.noConfusion hq
  interval_cases q
  all_goals revert hq
  all_goals decide

theorem marker_prefix_dot {cs : List Char} {j : Nat}
    (hp : hotUpdateMarker.isPrefixOf (cs.drop j) = true) : cs.get? j = some '.' := by
  obtain ⟨t, ht⟩ := List.isPrefixOf_iff_prefix.mp hp
  have h0 : (cs.drop j).get? 0 = some '.' := by
    rw [← ht]
    rfl
  rw [List.get?_drop] at h0
  simpa using h0

theorem wellFormed_dot {nl hl : List Char}
    (hnd : ∀ c ∈ nl, c ≠ '.') (hhd : ∀ c ∈ hl, c ≠ '.') {j : Nat}
    (hj : (nl ++ '.' :: (hl ++ '.' :: "hot-update.js".toList)).get? j = some '.') :
    j = nl.length ∨ j = nl.length + 1 + hl.length ∨ j = nl.length + hl.length + 12 := by
  rcases Nat.lt_or_ge j nl.length with h1 | h1
  · rw [List.get?_append h1] at hj
    exact absurd rfl (hnd '.' (List.get?_mem hj))
  · rw [List.get?_append_right h1] at hj
    rcases hk : j - nl.length with _ | m
    · exact Or.inl (by omega)
    · rw [hk, List.get?_cons_succ] at hj
      rcases Nat.lt_or_ge m hl.length with h2 | h2
      · rw [List.get?_append h2] at hj
        exact absurd rfl (hhd '.' (List.get?_mem hj))
      · rw [List.get?_append_right h2] at hj
        rcases hq : m - hl.length with _ | q
        · exact Or.inr (Or.inl (by omega))
        · rw [hq, List.get?_cons_succ] at hj
          have h10 := hotUpdateTail_dot q hj
          exact Or.inr (Or.inr (by omega))

theorem drop_after_first_dot (nl X : List Char) :
    (nl ++ '.' :: X).drop (nl.length + 1) = X := by
  have h : nl ++ '.' :: X = (nl ++ ['.']) ++ X := by simp
  have hlen : (nl ++ ['.']).length = nl.length + 1 := by simp
  rw [h, ← hlen, List.drop_left]

theorem drop_center (nl hl X : List Char) :
    (nl ++ '.' :: (hl ++ '.' :: X)).drop (nl.length + 1 + hl.length) = '.' :: X := by
  have h : nl ++ '.' :: (hl ++ '.' :: X) = (nl ++ '.' :: hl) ++ '.' :: X := by simp
  have hlen : (nl ++ '.' :: hl).length = nl.length + 1 + hl.length := by
    rw [List.length_append, List.length_cons]
    omega
  rw [h, ← hlen, List.drop_left]

theorem marker_at_center (nl hl : List Char) :
    hotUpdateMarker.isPrefixOf
      ((nl ++ '.' :: (hl ++ '.' :: "hot-update.js".toList)).drop
        (nl.length + 1 + hl.length)) = true := by
  rw [drop_center]
  decide

theorem marker_at_tail_dot_false (nl hl : List Char) :
    hotUpdateMarker.isPrefixOf
      ((nl ++ '.' :: (hl ++ '.' :: "hot-update.js".toList)).drop
        (nl.length + hl.length + 12)) = false := by
  have h1 : nl.length + hl.length + 12 = nl.length + 1 + hl.length + 11 := by omega
  have h2 := drop_center nl hl ("hot-update.js".toList)
  rw [h1, ← List.drop_drop, h2]
  decide

theorem dot_at_name_len (nl X : List Char) : (nl ++ '.' :: X).get? nl.length = some '.' := by
  rw [List.get?_append_right (Nat.le_refl _)]
  simp

theorem dot_at_center (nl hl X : List Char) :
    (nl ++ '.' :: (hl ++ '.' :: X)).get? (nl.length + 1 + hl.length) = some '.' := by
  have h : nl ++ '.' :: (hl ++ '.' :: X) = (nl ++ '.' :: hl) ++ '.' :: X := by simp
  have hlen : (nl ++ '.' :: hl).length = nl.length + 1 + hl.length := by
    rw [List.length_append, List.length_cons]
    omega
  rw [h, ← hlen]
  exact dot_at_name_len _ _

theorem wellFormed_length (nl hl : List Char) :
    (nl ++ '.' :: (hl ++ '.' :: "hot-update.js".toList)).length
      = nl.length + hl.length + 15 := by
  have h13 : ("hot-update.js".toList).length = 13 := by decide
  simp [List.length_append, List.length_cons]
  omega

theorem hotUpdate_starts_eq (nl hl : List Char) (h1 : 1 ≤ nl.length)
    (h2 : 1 ≤ hl.length) (hnd : ∀ c ∈ nl, c ≠ '.') (hhd : ∀ c ∈ hl, c ≠ '.') :
    (dotPositions (nl ++ '.' :: (hl ++ '.' :: "hot-update.js".toList))).filter
      (fun i => decide (1 ≤ i) &&
        (dotHotUpdatePositions (nl ++ '.' :: (hl ++ '.' :: "hot-update.js".toList))).any
          (fun j => decide (i + 2 ≤ j))) = [nl.length] := by
  have hlen := wellFormed_length nl hl
  rw [dotPositions, List.filter_filter]
  apply filter_range_singleton (by omega)
  intro i hi
  constructor
  · intro hQ
    rw [Bool.and_eq_true, Bool.and_eq_true] at hQ
    obtain ⟨⟨hi1, hany⟩, hdot⟩ := hQ
    rw [List.any_eq_true] at hany
    obtain ⟨j, hjmem, hij⟩ := hany
    rw [decide_eq_true_eq] at hij
    rw [decide_eq_true_eq] at hi1
    have hdot2 : (nl ++ '.' :: (hl ++ '.' :: "hot-update.js".toList)).get? i = some '.' := by
      simpa using hdot
    have hjps : hotUpdateMarker.isPrefixOf
        ((nl ++ '.' :: (hl ++ '.' :: "hot-update.js".toList)).drop j) = true := by
      simp only [dotHotUpdatePositions, List.mem_filter, List.mem_range] at hjmem
      exact hjmem.2
    have hjdot := marker_prefix_dot hjps
    have hjcand := wellFormed_dot hnd hhd hjdot
    have hicand := wellFormed_dot hnd hhd hdot2
    rcases hicand with hc | hc | hc
    · exact hc
    · exfalso
      rcases hjcand with hj2 | hj2 | hj2
      · omega
      · omega
      · subst hj2
        rw [marker_at_tail_dot_false] at hjps
        exact Bool.noConfusion hjps
    · exfalso
      rcases hjcand with hj2 | hj2 | hj2 <;> omega
  · intro hieq
    subst hieq
    rw [Bool.and_eq_true, Bool.and_eq_true]
    refine ⟨⟨by simpa using h1, ?_⟩, by simpa using dot_at_name_len nl _⟩
    rw [List.any_eq_true]
    refine ⟨nl.length + 1 + hl.length, ?_, by simp; omega⟩
    simp only [dotHotUpdatePositions, List.mem_filter, List.mem_range]
    exact ⟨by omega, marker_at_center nl hl⟩

theorem hotUpdate_ps_filter_eq (nl hl : List Char) (h2 : 1 ≤ hl.length)
    (hnd : ∀ c ∈ nl, c ≠ '.') (hhd : ∀ c ∈ hl, c ≠ '.') :
    (dotHotUpdatePositions (nl ++ '.' :: (hl ++ '.' :: "hot-update.js".toList))).filter
      (fun j => decide (nl.length + 2 ≤ j)) = [nl.length + 1 + hl.length] := by
  have hlen := wellFormed_length nl hl
  rw [dotHotUpdatePositions, List.filter_filter]
  apply filter_range_singleton (by omega)
  intro j hj
  constructor
  · intro hQ
    rw [Bool.and_eq_true] at hQ
    obtain ⟨hge, hpref⟩ := hQ
    rw [decide_eq_true_eq] at hge
    have hjdot := marker_prefix_dot hpref
    have hjcand := wellFormed_dot hnd hhd hjdot
    rcases hjcand with hc | hc | hc
    · omega
    · exact hc
    · exfalso
      subst hc
      rw [marker_at_tail_dot_false] at hpref
      exact Bool.noConfusion hpref
  · intro hjeq
    subst hjeq
    rw [Bool.and_eq_true]
    exact ⟨by simp; omega, marker_at_center nl hl⟩

theorem execHotUpdateMatcher_wellFormed (name hash : String)
    (hname : name ≠ "") (hhash : hash ≠ "")
    (hnd : ∀ c ∈ name.toList, c ≠ '.') (hhd : ∀ c ∈ hash.toList, c ≠ '.') :
    execHotUpdateMatcher (name ++ "." ++ hash ++ ".hot-update.js") = some hash := by
  have h1 : 1 ≤ name.toList.length := by
    cases hn : name.toList with
    | nil => exact absurd (by rw [← mk_toList name, hn]) hname
    | cons c cst => simp
  have h2 : 1 ≤ hash.toList.length := by
    cases hn : hash.toList with
    | nil => exact absurd (by rw [← mk_toList hash, hn]) hhash
    | cons c cst => simp
  have hcs : (name ++ "." ++ hash ++ ".hot-update.js").toList
      = name.toList ++ '.' :: (hash.toList ++ '.' :: "hot-update.js".toList) := by
    show (name ++ "." ++ hash ++ ".hot-update.js").data = _
    rw [String.data_append, String.data_append, String.data_append]
    show name.data ++ ['.'] ++ hash.data ++ ('.' :: "hot-update.js".data) = _
    simp
  rw [execHotUpdateMatcher, hcs, hotUpdate_starts_eq _ _ h1 h2 hnd hhd,
      List.getLast?_singleton]
  rw [Option.some_bind]
  rw [hotUpdate_ps_filter_eq _ _ h2 hnd hhd, List.getLast?_singleton]
  rw [Option.map_some']
  rw [drop_after_first_dot]
  have htk : name.toList.length + 1 + hash.toList.length - (name.toList.length + 1)
      = hash.toList.length := by omega
  rw [htk, List.take_left, mk_toList]

theorem wellFormed_endsWith (name hash : String) :
    strEndsWith (name ++ "." ++ hash ++ ".hot-update.js") ".hot-update.js" = true := by
  unfold strEndsWith
  rw [List.isSuffixOf_iff_suffix]
  have h : (name ++ "." ++ hash ++ ".hot-update.js").toList
      = (name ++ "." ++ hash).toList ++ ".hot-update.js".toList := by
    show (name ++ "." ++ hash ++ ".hot-update.js").data = _
    rw [String.data_append]
    rfl
  rw [h]
  exact List.suffix_append _ _

/-- C8 counterexample: the file name `main.abc.hot-update.json` matches the
claimed pattern `<name>.<hash>.hot-update.<ext>` with hash segment `abc`, yet
the code returns the empty current hash for it, because its filter keeps only
names ending in the literal `.hot-update.js`. -/
theorem getCurrentHotUpdateHash_json_counterexample :
    getCurrentHotUpdateHash ["main.abc.hot-update.json"] = some "" ∧
    (some "" : Option String) ≠ some "abc" := by
  refine ⟨by decide, by decide⟩

/-- C8 amended: `currentHash` is computed by scanning `allEmittedFiles` for
names ending in the literal `.hot-update.js` (other extensions are ignored);
when none exists, `currentHash` is the empty string; when some exist, the hash
is extracted from the FIRST such name: for a name of the form
`<name>.<hash>.hot-update.js` (name and hash nonempty and dot-free) it is the
`<hash>` segment. (A first name ending in `.hot-update.js` without the
`<name>.<hash>.` structure makes the extraction throw.) -/
theorem getCurrentHotUpdateHash_spec :
    (∀ l : List String, (∀ f ∈ l, strEndsWith f ".hot-update.js" = false) →
        getCurrentHotUpdateHash l = some "") ∧
    (∀ (pre rest : List String) (name hash : String),
        (∀ f ∈ pre, strEndsWith f ".hot-update.js" = false) →
        name ≠ "" → hash ≠ "" →
        (∀ c ∈ name.toList, c ≠ '.') → (∀ c ∈ hash.toList, c ≠ '.') →
        getCurrentHotUpdateHash
            (pre ++ (name ++ "." ++ hash ++ ".hot-update.js") :: rest) = some hash) := by
  constructor
  · intro l hl
    have hfil : l.filter (fun x => strEndsWith x ".hot-update.js") = [] := by
      rw [List.filter_eq_nil_iff]
      intro a ha
      simp [hl a ha]
    unfold getCurrentHotUpdateHash
    rw [hfil]
    rfl
  · intro pre rest name hash hpre hname hhash hnd hhd
    have hsuf := wellFormed_endsWith name hash
    have hprefil : pre.filter (fun x => strEndsWith x ".hot-update.js") = [] := by
      rw [List.filter_eq_nil_iff]
      intro a ha
      simp [hpre a ha]
    have hfil : (pre ++ (name ++ "." ++ hash ++ ".hot-update.js") :: rest).filter
        (fun x => strEndsWith x ".hot-update.js")
        = (name ++ "." ++ hash ++ ".hot-update.js") ::
            rest.filter (fun x => strEndsWith x ".hot-update.js") := by
      rw [List.filter_append, hprefil, List.nil_append,
          @List.filter_cons_of_pos String (fun x => strEndsWith x ".hot-update.js") _ _ hsuf]
    unfold getCurrentHotUpdateHash
    rw [hfil]
    simp [execHotUpdateMatcher_wellFormed name hash hname hhash hnd hhd, hhash]

theorem getCurrentHotUpdateHash_spec_witness :
    getCurrentHotUpdateHash ([] : List String) = some "" ∧
    getCurrentHotUpdateHash ["main.abc.hot-update.js"] = some "abc" := by
  constructor
  · exact getCurrentHotUpdateHash_spec.1 [] (by intro f hf; cases hf)
  · have h := getCurrentHotUpdateHash_spec.2 [] [] "main" "abc"
      (by intro f hf; cases hf) (by decide) (by decide) (by decide) (by decide)
    have e : ("main" ++ "." ++ "abc" ++ ".hot-update.js" : String)
        = "main.abc.hot-update.js" := by decide
    rw [List.nil_append, e] at h
    exact h

end WebpackCompiler
